import Mathlib

/-!
Shallow embedding of `src/src/lib/local-cache.manager.ts` (LocalCacheManager).

Opaque TypeScript types are instantiated as `Nat`: cache keys (`CacheKey`),
call arguments (`CallArgs`), call contexts (`CallContext`), cached values
(`T`) and error values are all `Nat`.

The manager's collaborators are modelled as a pure environment `Env`:
the data provider (producer) is a function from context and arguments to
`Except` (error or produced value), the durable store write outcome is a
function from key and record to `Option` error (`none` means the write
succeeds), and the timestamp provider is a `now : Nat` argument to each
operation.

The rxjs `ReplaySubject(1)` used as the per-entry multicast channel is
modelled by `Subject` following rxjs semantics: `next` buffers the latest
value unless the subject is stopped, `error` stops the subject with the
first error only, and a new subscriber first receives the buffered value
(if any) and then the terminal error (if any).

Asynchronous methods are sequentialised: each manager method is one pure
state transformer, and externally visible effects (producer invocations,
durable-store writes and removals, channel publications and failures) are
recorded in an event trace.
-/

/-- Stored record of the durable store (`CacheData` in the source):
payload, max age in milliseconds, creation timestamp. -/
structure CacheRecord where
  data : Nat
  maxAgeMS : Nat
  createdAt : Nat
  deriving DecidableEq, Repr

/-- Modelled from the spec: `isCacheOutdated` lives in
`src/interface/cache-storage.interface.ts`, which is not part of the
provided sources; the spec states that a record is outdated when
`now >= createdAt + maxAge`. -/
def isCacheOutdated (r : CacheRecord) (now : Nat) : Bool :=
  decide (r.createdAt + r.maxAgeMS ≤ now)

/-- Model of an rxjs `ReplaySubject` with buffer size 1: the latest value
ever pushed (if any), the terminal error (if any), and the number of
currently active subscribers (`observed` in rxjs is `observers > 0`). -/
structure Subject where
  buffer : Option Nat
  errorVal : Option Nat
  observers : Nat
  deriving DecidableEq, Repr

/-- A freshly constructed `new ReplaySubject<T>(1)`. -/
def Subject.new : Subject := ⟨none, none, 0⟩

/-- An rxjs subject is stopped once it has errored. -/
def Subject.isStopped (s : Subject) : Bool := s.errorVal.isSome

/-- `subject.next(v)`: a stopped subject ignores the call; otherwise the
replay buffer of size 1 now holds `v` (delivered to current subscribers). -/
def Subject.next (s : Subject) (v : Nat) : Subject :=
  if s.isStopped then s else { s with buffer := some v }

/-- `subject.error(e)`: a stopped subject ignores the call; otherwise the
subject is terminated with `e`. -/
def Subject.error (s : Subject) (e : Nat) : Subject :=
  if s.isStopped then s else { s with errorVal := some e }

/-- `subject.observed`: whether the subject currently has subscribers. -/
def Subject.observed (s : Subject) : Bool := s.observers ≠ 0

/-- The values a subscriber attaching now immediately receives: the replay
of the size-1 buffer (rxjs `ReplaySubject` replays its buffer even after
an error). -/
def Subject.subscribeReplay (s : Subject) : List Nat := s.buffer.toList

/-- The terminal error a subscriber attaching now observes right after the
replay, if the subject has been failed. -/
def Subject.subscribeError (s : Subject) : Option Nat := s.errorVal

/-- The in-memory cache entry (`interface Cache<T>` in the source). -/
structure Cache where
  key : Nat
  lastArgs : Nat
  context : Nat
  subject : Subject
  initialized : Bool
  deriving DecidableEq, Repr

/-- Externally visible effect events, in the order the manager performs
them: producer invocation (with the bound context and forwarded args),
durable-store write call (`storeAsync`), channel publication
(`subject.next`), channel failure (`subject.error`), durable-store removal
(`removeAsync`). -/
inductive Event where
  | producerCall (context lastArgs : Nat)
  | storeWrite (key : Nat) (record : CacheRecord)
  | publish (key value : Nat)
  | failChannel (key err : Nat)
  | storageRemove (keys : List Nat)
  deriving DecidableEq, Repr

/-- Manager state: the key-to-entry map (`_cacheStore`, a JS `Map`, kept in
insertion order as an association list), the durable store contents, and
the trace of effect events performed so far. -/
structure MState where
  cacheStore : List (Nat × Cache)
  storage : List (Nat × CacheRecord)
  trace : List Event
  deriving DecidableEq, Repr

/-- The initial manager state: empty entry map, empty durable store. -/
def initState : MState := ⟨[], [], []⟩

/-- Environment: constructor arguments and collaborator behaviour.
`producer c a` is the outcome of `_dataProvider.apply(c, a)` (first
emitted value or error); `storeResult k r` is `none` when
`storeAsync(k, r)` succeeds and `some e` when it rejects with `e`. -/
structure Env where
  producer : Nat → Nat → Except Nat Nat
  maxAgeInMS : Nat
  storeResult : Nat → CacheRecord → Option Nat

/-- Association-list lookup (JS `Map.get`). -/
def alookup {α : Type} : List (Nat × α) → Nat → Option α
  | [], _ => none
  | (k2, v) :: rest, k => if k2 = k then some v else alookup rest k

/-- Association-list insert-or-replace (JS `Map.set`): replaces in place if
the key is present, appends otherwise (JS `Map` keeps insertion order). -/
def aset {α : Type} : List (Nat × α) → Nat → α → List (Nat × α)
  | [], k, v => [(k, v)]
  | (k2, v2) :: rest, k, v =>
      if k2 = k then (k, v) :: rest else (k2, v2) :: aset rest k v

/-- Transform the value at `k` when present; no-op when absent. -/
def amodify {α : Type} : List (Nat × α) → Nat → (α → α) → List (Nat × α)
  | [], _, _ => []
  | (k2, v) :: rest, k, f =>
      if k2 = k then (k2, f v) :: amodify rest k f else (k2, v) :: amodify rest k f

/-- Replace the value at `k` when present; no-op when absent. This models
mutating a JS object that may or may not still be in the `Map`: the map is
only affected when it still holds that object. -/
def aupdate {α : Type} (l : List (Nat × α)) (k : Nat) (v : α) : List (Nat × α) :=
  amodify l k (fun _ => v)

/-- Source `_getAndEnsureCache`: return the existing entry for `key`, or
construct an uninitialized entry capturing `args` and `context` with a
fresh `ReplaySubject(1)` and insert it. -/
def getAndEnsureCache (st : MState) (key args context : Nat) : Cache × MState :=
  match alookup st.cacheStore key with
  | some c => (c, st)
  | none =>
      let c : Cache := ⟨key, args, context, Subject.new, false⟩
      (c, { st with cacheStore := aset st.cacheStore key c })

/-- Source `_removeUnobservedCachesAsync`: delete every entry whose key
differs from `except` and whose subject is not observed (equivalently,
keep an entry iff its key is the exception or its subject is observed). -/
def removeUnobservedCaches (st : MState) (except : Option Nat) : MState :=
  let kept := st.cacheStore.filter
    (fun p => decide (some p.1 = except) || p.2.subject.observed)
  { st with cacheStore := kept }

/-- Source `_setCacheData`: publish on the entry's subject and mark the
entry initialized. -/
def setCacheData (c : Cache) (d : Nat) : Cache :=
  { c with subject := c.subject.next d, initialized := true }

/-- Source `_refreshCacheData`: invoke the producer with the captured
context and args; on success store `{ data, maxAgeMS = _maxAgeInMS,
createdAt = now }` under the entry's key and then publish and mark
initialized; on producer error, or on `storeAsync` rejection, call
`subject.error` with that error. The durable-store contents change only
when the write succeeds; the `storeWrite` event records the call. -/
def refreshCacheData (env : Env) (now : Nat) (st : MState) (cache : Cache) : MState :=
  let st1 : MState :=
    { st with trace := st.trace ++ [Event.producerCall cache.context cache.lastArgs] }
  match env.producer cache.context cache.lastArgs with
  | Except.error e =>
      let c := { cache with subject := cache.subject.error e }
      { st1 with cacheStore := aupdate st1.cacheStore cache.key c,
                 trace := st1.trace ++ [Event.failChannel cache.key e] }
  | Except.ok d =>
      let r : CacheRecord := ⟨d, env.maxAgeInMS, now⟩
      match env.storeResult cache.key r with
      | some e =>
          let c := { cache with subject := cache.subject.error e }
          { st1 with cacheStore := aupdate st1.cacheStore cache.key c,
                     trace := st1.trace ++
                       [Event.storeWrite cache.key r, Event.failChannel cache.key e] }
      | none =>
          let c := setCacheData cache d
          { st1 with cacheStore := aupdate st1.cacheStore cache.key c,
                     storage := aset st1.storage cache.key r,
                     trace := st1.trace ++
                       [Event.storeWrite cache.key r, Event.publish cache.key d] }

/-- Source expression `!currentCacheData || isCacheOutdated(currentCacheData,
this._timeStampProvider.now())`: refresh is needed when there is no stored
record or the record is outdated. -/
def cacheDataNeedsRefresh (currentCacheData : Option CacheRecord) (now : Nat) : Bool :=
  match currentCacheData with
  | none => true
  | some r => isCacheOutdated r now

/-- Source `_refreshCacheIfOutOfDataAsync`: read the stored record for
`key`; refresh is needed when there is no record or it is outdated; if so
run `_refreshCacheData`, else if the entry is uninitialized and a record
exists, publish the stored payload and mark initialized. -/
def refreshCacheIfOutOfData (env : Env) (now : Nat) (st : MState) (key : Nat)
    (cache : Cache) : MState :=
  let currentCacheData := alookup st.storage key
  if cacheDataNeedsRefresh currentCacheData now then
    refreshCacheData env now st cache
  else
    match currentCacheData, cache.initialized with
    | some r, false =>
        let c := setCacheData cache r.data
        { st with cacheStore := aupdate st.cacheStore cache.key c,
                  trace := st.trace ++ [Event.publish cache.key r.data] }
    | _, _ => st

/-- Source `getCache$`: get or create the entry, sweep unobserved entries
excepting this key, then run the staleness check (fire-and-forget in the
source, sequentialised here). The returned observable is the entry's
subject, read off the resulting state. -/
def getCache (env : Env) (now : Nat) (st : MState) (key args context : Nat) : MState :=
  let pr := getAndEnsureCache st key args context
  let st2 := removeUnobservedCaches pr.2 (some key)
  refreshCacheIfOutOfData env now st2 key pr.1

/-- Target key set of an invalidation (computed after the sweep):
the given key, or every key currently in the entry map. -/
def invalidateTargets (st : MState) (cacheKey : Option Nat) : List Nat :=
  match cacheKey with
  | some k => [k]
  | none => st.cacheStore.map Prod.fst

/-- Source `this._cacheDataStorage.removeAsync(allToInvalidateAndUpdate)`:
drop the records for the target keys from the durable store. -/
def removeStoredRecords (st : MState) (ks : List Nat) : MState :=
  { st with storage := st.storage.filter (fun p => decide (¬ p.1 ∈ ks)),
            trace := st.trace ++ [Event.storageRemove ks] }

/-- The `Promise.all` over targets: for each target key, refresh its entry
when it is still in the map (sequentialised in list order). -/
def runRefreshAll (env : Env) (now : Nat) (st : MState) (targets : List Nat) : MState :=
  targets.foldl
    (fun s k =>
      match alookup s.cacheStore k with
      | some c => refreshCacheData env now s c
      | none => s)
    st

/-- Source `invalidateAndUpdateAsync`: sweep with no exception, compute the
targets, remove their durable records, then unconditionally refresh every
target entry still present. -/
def invalidateAndUpdateAsync (env : Env) (now : Nat) (st : MState)
    (cacheKey : Option Nat) : MState :=
  let st1 := removeUnobservedCaches st none
  let targets := invalidateTargets st1 cacheKey
  runRefreshAll env now (removeStoredRecords st1 targets) targets

/-- A consumer subscribing to the observable returned for `key`: one more
active subscriber on that entry's subject. -/
def subscribeEntry (st : MState) (key : Nat) : MState :=
  let updated := amodify st.cacheStore key
    (fun c => { c with subject := { c.subject with observers := c.subject.observers + 1 } })
  { st with cacheStore := updated }

/-- A consumer unsubscribing from `key`: one fewer active subscriber. -/
def unsubscribeEntry (st : MState) (key : Nat) : MState :=
  let updated := amodify st.cacheStore key
    (fun c => { c with subject := { c.subject with observers := c.subject.observers - 1 } })
  { st with cacheStore := updated }

/-- One externally triggered manager operation. -/
inductive Op where
  | read (key args context now : Nat)
  | invalidate (cacheKey : Option Nat) (now : Nat)
  | subscribe (key : Nat)
  | unsubscribe (key : Nat)
  deriving Repr

/-- Apply one operation to the state. -/
def applyOp (env : Env) (st : MState) : Op → MState
  | Op.read k a c n => getCache env n st k a c
  | Op.invalidate ck n => invalidateAndUpdateAsync env n st ck
  | Op.subscribe k => subscribeEntry st k
  | Op.unsubscribe k => unsubscribeEntry st k

/-- Run a sequence of operations from a state. -/
def runOps (env : Env) (st : MState) (ops : List Op) : MState :=
  ops.foldl (applyOp env) st

/-- The producer invocations recorded in a trace, as (context, args). -/
def producerCalls (tr : List Event) : List (Nat × Nat) :=
  tr.filterMap (fun e => match e with
    | Event.producerCall c a => some (c, a)
    | _ => none)

/-- The durable-store write calls recorded in a trace. -/
def storeWrites (tr : List Event) : List (Nat × CacheRecord) :=
  tr.filterMap (fun e => match e with
    | Event.storeWrite k r => some (k, r)
    | _ => none)

/-- The publications recorded in a trace, as (key, value). -/
def publishes (tr : List Event) : List (Nat × Nat) :=
  tr.filterMap (fun e => match e with
    | Event.publish k v => some (k, v)
    | _ => none)

/-- The producer invocation an invalidation refresh for key `k` would make
in state `st`: the captured context and args of the entry at `k`, if any. -/
def targetCall (st : MState) (k : Nat) : Option (Nat × Nat) :=
  (alookup st.cacheStore k).map (fun c => (c.context, c.lastArgs))

/-- Well-formedness of the entry map, maintained by construction by a JS
`Map`: keys are unique, and each entry records its own map key in its
`key` field. -/
def WF (st : MState) : Prop :=
  (st.cacheStore.map Prod.fst).Nodup ∧ ∀ p ∈ st.cacheStore, p.2.key = p.1

instance (st : MState) : Decidable (WF st) := by
  unfold WF
  infer_instance


/-! Association-list lemmas. -/

theorem alookup_eq_none {α : Type} (l : List (Nat × α)) (k : Nat) :
    alookup l k = none ↔ k ∉ l.map Prod.fst := by
  induction l with
  | nil => simp [alookup]
  | cons p rest ih =>
      obtain ⟨k2, v⟩ := p
      by_cases h : k2 = k
      · subst h
        simp [alookup]
      · simp [alookup, h, ih, Ne.symm h]

theorem alookup_mem {α : Type} {l : List (Nat × α)} {k : Nat} {v : α}
    (h : alookup l k = some v) : (k, v) ∈ l := by
  induction l with
  | nil => simp [alookup] at h
  | cons p rest ih =>
      obtain ⟨k2, v2⟩ := p
      by_cases hk : k2 = k
      · subst hk
        simp [alookup] at h
        simp [h]
      · simp [alookup, hk] at h
        simp [ih h]

theorem alookup_aset {α : Type} (l : List (Nat × α)) (k k2 : Nat) (v : α) :
    alookup (aset l k v) k2 = if k = k2 then some v else alookup l k2 := by
  induction l with
  | nil => simp [aset, alookup]
  | cons p rest ih =>
      obtain ⟨k3, v3⟩ := p
      by_cases h3 : k3 = k
      · subst h3
        by_cases h2 : k3 = k2
        · subst h2
          simp [aset, alookup]
        · simp [aset, alookup, h2]
      · by_cases h2 : k3 = k2
        · subst h2
          have hne : ¬ k = k3 := fun hh => h3 hh.symm
          simp [aset, h3, alookup, hne]
        · simp [aset, h3, alookup, h2, ih]

theorem aset_of_none {α : Type} {l : List (Nat × α)} {k : Nat}
    (h : alookup l k = none) (v : α) : aset l k v = l ++ [(k, v)] := by
  induction l with
  | nil => simp [aset]
  | cons p rest ih =>
      obtain ⟨k2, v2⟩ := p
      by_cases hk : k2 = k
      · subst hk
        simp [alookup] at h
      · simp [alookup, hk] at h
        simp [aset, hk, ih h]

theorem alookup_amodify {α : Type} (l : List (Nat × α)) (k k2 : Nat) (f : α → α) :
    alookup (amodify l k f) k2 =
      if k = k2 then (alookup l k2).map f else alookup l k2 := by
  induction l with
  | nil => by_cases h : k = k2 <;> simp [amodify, alookup, h]
  | cons p rest ih =>
      obtain ⟨k3, v3⟩ := p
      by_cases h3 : k3 = k
      · subst h3
        by_cases h2 : k3 = k2
        · subst h2
          simp [amodify, alookup]
        · simp [amodify, alookup, h2, ih]
      · by_cases h2 : k3 = k2
        · subst h2
          have hne : ¬ k = k3 := fun hh => h3 hh.symm
          simp [amodify, alookup, h3, hne]
        · simp [amodify, alookup, h3, h2, ih]

theorem keys_amodify {α : Type} (l : List (Nat × α)) (k : Nat) (f : α → α) :
    (amodify l k f).map Prod.fst = l.map Prod.fst := by
  induction l with
  | nil => simp [amodify]
  | cons p rest ih =>
      obtain ⟨k2, v⟩ := p
      by_cases h : k2 = k
      · simp [amodify, h, ih]
      · simp [amodify, h, ih]

theorem mem_amodify {α : Type} {l : List (Nat × α)} {k : Nat} {f : α → α}
    {p : Nat × α} (h : p ∈ amodify l k f) :
    p ∈ l ∨ ∃ q ∈ l, q.1 = k ∧ p = (q.1, f q.2) := by
  induction l with
  | nil => simp [amodify] at h
  | cons q rest ih =>
      obtain ⟨k2, v⟩ := q
      by_cases hk : k2 = k
      · rw [amodify, if_pos hk] at h
        rcases List.mem_cons.mp h with h1 | h1
        · right
          exact ⟨(k2, v), List.mem_cons_self _ _, hk, h1⟩
        · rcases ih h1 with h2 | ⟨q2, hq2, hq2k, hq2e⟩
          · left
            exact List.mem_cons_of_mem _ h2
          · right
            exact ⟨q2, List.mem_cons_of_mem _ hq2, hq2k, hq2e⟩
      · rw [amodify, if_neg hk] at h
        rcases List.mem_cons.mp h with h1 | h1
        · left
          simp [h1]
        · rcases ih h1 with h2 | ⟨q2, hq2, hq2k, hq2e⟩
          · left
            exact List.mem_cons_of_mem _ h2
          · right
            exact ⟨q2, List.mem_cons_of_mem _ hq2, hq2k, hq2e⟩

theorem alookup_filter_key {α : Type} (l : List (Nat × α)) (p : Nat → Bool) (k : Nat) :
    alookup (l.filter (fun q => p q.1)) k = if p k then alookup l k else none := by
  induction l with
  | nil => simp [alookup]
  | cons q rest ih =>
      obtain ⟨k2, v2⟩ := q
      by_cases hk : k2 = k
      · subst hk
        by_cases hp : p k2
        · simp [List.filter_cons, hp, alookup]
        · simp [List.filter_cons, hp, alookup, ih]
      · by_cases hp : p k2
        · simp [List.filter_cons, hp, alookup, hk, ih]
        · simp [List.filter_cons, hp, alookup, hk, ih]

theorem alookup_filter_keep {α : Type} (l : List (Nat × α)) (p : Nat × α → Bool)
    (k : Nat) (hk : ∀ v, p (k, v) = true) : alookup (l.filter p) k = alookup l k := by
  induction l with
  | nil => simp
  | cons q rest ih =>
      obtain ⟨k2, v2⟩ := q
      by_cases hkk : k2 = k
      · subst hkk
        simp [List.filter_cons, hk v2, alookup]
      · by_cases hp : p (k2, v2)
        · simp [List.filter_cons, hp, alookup, hkk, ih]
        · simp [List.filter_cons, hp, alookup, hkk, ih]

theorem alookup_filter_none {α : Type} {l : List (Nat × α)} {p : Nat × α → Bool}
    {k : Nat} (h : alookup l k = none) : alookup (l.filter p) k = none := by
  rw [alookup_eq_none] at h ⊢
  intro hmem
  apply h
  obtain ⟨q, hq, hfq⟩ := List.mem_map.mp hmem
  exact List.mem_map.mpr ⟨q, List.mem_of_mem_filter hq, hfq⟩

theorem alookup_filter_nodup {α : Type} {l : List (Nat × α)} {p : Nat × α → Bool}
    {k : Nat} {v : α} (hnd : (l.map Prod.fst).Nodup)
    (h : alookup (l.filter p) k = some v) :
    alookup l k = some v ∧ p (k, v) = true := by
  induction l with
  | nil => simp [alookup] at h
  | cons q rest ih =>
      obtain ⟨k2, v2⟩ := q
      simp only [List.map_cons, List.nodup_cons] at hnd
      by_cases hp : p (k2, v2)
      · rw [List.filter_cons_of_pos hp] at h
        by_cases hkk : k2 = k
        · subst hkk
          rw [alookup, if_pos rfl] at h ⊢
          cases h
          exact ⟨rfl, hp⟩
        · rw [alookup, if_neg hkk] at h ⊢
          exact ih hnd.2 h
      · rw [List.filter_cons_of_neg hp] at h
        have h2 := ih hnd.2 h
        by_cases hkk : k2 = k
        · subst hkk
          exact absurd (List.mem_map.mpr ⟨(k2, v), alookup_mem h2.1, rfl⟩) hnd.1
        · rw [alookup, if_neg hkk]
          exact h2

/-! Subject lemmas and well-formedness preservation. -/

theorem subject_next_stopped {s : Subject} {e : Nat} (h : s.errorVal = some e)
    (v : Nat) : Subject.next s v = s := by
  simp [Subject.next, Subject.isStopped, h]

theorem subject_error_stopped {s : Subject} {e : Nat} (h : s.errorVal = some e)
    (e2 : Nat) : Subject.error s e2 = s := by
  simp [Subject.error, Subject.isStopped, h]

theorem WF_initState : WF initState := by
  constructor
  · simp [initState]
  · intro p hp
    simp [initState] at hp

theorem WFstore_amodify {l : List (Nat × Cache)} (hnd : (l.map Prod.fst).Nodup)
    (hent : ∀ p ∈ l, p.2.key = p.1) (k : Nat) (f : Cache → Cache)
    (hf : ∀ q ∈ l, q.1 = k → (f q.2).key = k) :
    ((amodify l k f).map Prod.fst).Nodup ∧ ∀ p ∈ amodify l k f, p.2.key = p.1 := by
  refine ⟨by rw [keys_amodify]; exact hnd, ?_⟩
  intro p hp
  rcases mem_amodify hp with h1 | ⟨q, hq, hqk, hqe⟩
  · exact hent p h1
  · subst hqe
    simpa [hqk] using hf q hq hqk

theorem WF_amodifyState {st : MState} (h : WF st) (k : Nat) (f : Cache → Cache)
    (hf : ∀ q ∈ st.cacheStore, q.1 = k → (f q.2).key = k)
    {st' : MState} (hs : st'.cacheStore = amodify st.cacheStore k f) : WF st' := by
  obtain ⟨h1, h2⟩ := WFstore_amodify h.1 h.2 k f hf
  exact ⟨by rw [hs]; exact h1, by rw [hs]; exact h2⟩

theorem getAndEnsure_WF {st : MState} (h : WF st) (key args context : Nat) :
    WF (getAndEnsureCache st key args context).2 ∧
    alookup (getAndEnsureCache st key args context).2.cacheStore key =
      some (getAndEnsureCache st key args context).1 ∧
    (getAndEnsureCache st key args context).1.key = key := by
  unfold getAndEnsureCache
  cases hl : alookup st.cacheStore key with
  | some c =>
      refine ⟨h, hl, ?_⟩
      exact h.2 (key, c) (alookup_mem hl)
  | none =>
      have hset := aset_of_none hl (⟨key, args, context, Subject.new, false⟩ : Cache)
      constructor
      · constructor
        · simp only [hset]
          rw [List.map_append]
          rw [List.nodup_append]
          refine ⟨h.1, by simp, ?_⟩
          intro a ha hb
          simp at hb
          rw [hb] at ha
          exact (alookup_eq_none st.cacheStore key).mp hl ha
        · intro p hp
          simp only [hset] at hp
          rcases List.mem_append.mp hp with h1 | h1
          · exact h.2 p h1
          · simp at h1
            simp [h1]
      · constructor
        · simp [alookup_aset]
        · rfl

theorem sweep_WF {st : MState} (h : WF st) (ex : Option Nat) :
    WF (removeUnobservedCaches st ex) := by
  constructor
  · simp only [removeUnobservedCaches]
    exact List.Nodup.sublist ((List.filter_sublist _).map Prod.fst) h.1
  · intro p hp
    simp only [removeUnobservedCaches] at hp
    exact h.2 p (List.mem_of_mem_filter hp)

/-! Explicit characterizations of the three outcomes of `_refreshCacheData`:
producer failure, persistence failure, success. -/

theorem refreshCacheData_producer_error {env : Env} {cache : Cache} {e : Nat}
    (hp : env.producer cache.context cache.lastArgs = Except.error e)
    (now : Nat) (st : MState) :
    refreshCacheData env now st cache =
      { st with cacheStore := aupdate st.cacheStore cache.key
                  { cache with subject := cache.subject.error e },
                trace := st.trace ++
                  [Event.producerCall cache.context cache.lastArgs,
                   Event.failChannel cache.key e] } := by
  unfold refreshCacheData
  rw [hp]
  simp [List.append_assoc]

theorem refreshCacheData_store_error {env : Env} {cache : Cache} {d e : Nat} {now : Nat}
    (hp : env.producer cache.context cache.lastArgs = Except.ok d)
    (hs : env.storeResult cache.key ⟨d, env.maxAgeInMS, now⟩ = some e)
    (st : MState) :
    refreshCacheData env now st cache =
      { st with cacheStore := aupdate st.cacheStore cache.key
                  { cache with subject := cache.subject.error e },
                trace := st.trace ++
                  [Event.producerCall cache.context cache.lastArgs,
                   Event.storeWrite cache.key ⟨d, env.maxAgeInMS, now⟩,
                   Event.failChannel cache.key e] } := by
  unfold refreshCacheData
  rw [hp]
  simp only [hs]
  simp [List.append_assoc]

theorem refreshCacheData_success {env : Env} {cache : Cache} {d : Nat} {now : Nat}
    (hp : env.producer cache.context cache.lastArgs = Except.ok d)
    (hs : env.storeResult cache.key ⟨d, env.maxAgeInMS, now⟩ = none)
    (st : MState) :
    refreshCacheData env now st cache =
      { st with cacheStore := aupdate st.cacheStore cache.key (setCacheData cache d),
                storage := aset st.storage cache.key ⟨d, env.maxAgeInMS, now⟩,
                trace := st.trace ++
                  [Event.producerCall cache.context cache.lastArgs,
                   Event.storeWrite cache.key ⟨d, env.maxAgeInMS, now⟩,
                   Event.publish cache.key d] } := by
  unfold refreshCacheData
  rw [hp]
  simp only [hs]
  simp [List.append_assoc]

/-! Branch characterizations of `_refreshCacheIfOutOfDataAsync`. -/

theorem refreshCacheIfOutOfData_needs {env : Env} {now : Nat} {st : MState}
    {key : Nat} (cache : Cache)
    (h : cacheDataNeedsRefresh (alookup st.storage key) now = true) :
    refreshCacheIfOutOfData env now st key cache = refreshCacheData env now st cache := by
  unfold refreshCacheIfOutOfData
  simp [h]

theorem refreshCacheIfOutOfData_fresh_uninit {env : Env} {now : Nat} {st : MState}
    {key : Nat} {cache : Cache} {r : CacheRecord}
    (h : cacheDataNeedsRefresh (alookup st.storage key) now = false)
    (hr : alookup st.storage key = some r) (hi : cache.initialized = false) :
    refreshCacheIfOutOfData env now st key cache =
      { st with cacheStore := aupdate st.cacheStore cache.key (setCacheData cache r.data),
                trace := st.trace ++ [Event.publish cache.key r.data] } := by
  unfold refreshCacheIfOutOfData
  rw [hr] at h ⊢
  simp [h, hi]

theorem refreshCacheIfOutOfData_fresh_init {env : Env} {now : Nat} {st : MState}
    {key : Nat} {cache : Cache}
    (h : cacheDataNeedsRefresh (alookup st.storage key) now = false)
    (hi : cache.initialized = true) :
    refreshCacheIfOutOfData env now st key cache = st := by
  unfold refreshCacheIfOutOfData
  cases hcd : alookup st.storage key with
  | none =>
      rw [hcd] at h
      simp [cacheDataNeedsRefresh] at h
  | some r =>
      rw [hcd] at h
      simp [h, hi]

/-! Well-formedness preservation for the remaining operations. -/

theorem refreshCacheData_WF {st : MState} (h : WF st) (env : Env) (now : Nat)
    (cache : Cache) : WF (refreshCacheData env now st cache) := by
  cases hp : env.producer cache.context cache.lastArgs with
  | error e =>
      rw [refreshCacheData_producer_error hp]
      exact WF_amodifyState h cache.key _ (fun q hq hqk => rfl) rfl
  | ok d =>
      cases hs : env.storeResult cache.key ⟨d, env.maxAgeInMS, now⟩ with
      | some e =>
          rw [refreshCacheData_store_error hp hs]
          exact WF_amodifyState h cache.key _ (fun q hq hqk => rfl) rfl
      | none =>
          rw [refreshCacheData_success hp hs]
          exact WF_amodifyState h cache.key _ (fun q hq hqk => rfl) rfl

theorem refreshCacheIfOutOfData_WF {st : MState} (h : WF st) (env : Env) (now : Nat)
    (key : Nat) (cache : Cache) : WF (refreshCacheIfOutOfData env now st key cache) := by
  cases hb : cacheDataNeedsRefresh (alookup st.storage key) now with
  | true =>
      rw [refreshCacheIfOutOfData_needs cache hb]
      exact refreshCacheData_WF h env now cache
  | false =>
      cases hcd : alookup st.storage key with
      | none =>
          rw [hcd] at hb
          simp [cacheDataNeedsRefresh] at hb
      | some r =>
          cases hi : cache.initialized with
          | false =>
              rw [refreshCacheIfOutOfData_fresh_uninit hb hcd hi]
              exact WF_amodifyState h cache.key _ (fun q hq hqk => rfl) rfl
          | true =>
              rw [refreshCacheIfOutOfData_fresh_init hb hi]
              exact h

theorem getCache_WF {st : MState} (h : WF st) (env : Env) (now key args context : Nat) :
    WF (getCache env now st key args context) := by
  unfold getCache
  exact refreshCacheIfOutOfData_WF
    (sweep_WF (getAndEnsure_WF h key args context).1 _) env now key _

theorem removeStoredRecords_WF {st : MState} (h : WF st) (ks : List Nat) :
    WF (removeStoredRecords st ks) := h

theorem runRefreshAll_WF (env : Env) (now : Nat) :
    ∀ (targets : List Nat) (st : MState), WF st →
      WF (runRefreshAll env now st targets) := by
  intro targets
  induction targets with
  | nil =>
      intro st h
      simpa [runRefreshAll] using h
  | cons k rest ih =>
      intro st h
      rw [runRefreshAll, List.foldl_cons]
      cases hl : alookup st.cacheStore k with
      | none => exact ih st h
      | some c => exact ih _ (refreshCacheData_WF h env now c)

theorem invalidate_WF {st : MState} (h : WF st) (env : Env) (now : Nat)
    (cacheKey : Option Nat) : WF (invalidateAndUpdateAsync env now st cacheKey) := by
  unfold invalidateAndUpdateAsync
  exact runRefreshAll_WF env now _ _ (removeStoredRecords_WF (sweep_WF h none) _)

theorem subscribeEntry_WF {st : MState} (h : WF st) (key : Nat) :
    WF (subscribeEntry st key) := by
  unfold subscribeEntry
  refine WF_amodifyState h key _ ?_ rfl
  intro q hq hqk
  simp [← hqk, h.2 q hq]

theorem unsubscribeEntry_WF {st : MState} (h : WF st) (key : Nat) :
    WF (unsubscribeEntry st key) := by
  unfold unsubscribeEntry
  refine WF_amodifyState h key _ ?_ rfl
  intro q hq hqk
  simp [← hqk, h.2 q hq]

theorem applyOp_WF {st : MState} (h : WF st) (env : Env) (op : Op) :
    WF (applyOp env st op) := by
  cases op with
  | read k a c n => exact getCache_WF h env n k a c
  | invalidate ck n => exact invalidate_WF h env n ck
  | subscribe k => exact subscribeEntry_WF h k
  | unsubscribe k => exact unsubscribeEntry_WF h k

theorem runOps_WF (env : Env) : ∀ (ops : List Op) (st : MState), WF st →
    WF (runOps env st ops) := by
  intro ops
  induction ops with
  | nil =>
      intro st h
      simpa [runOps] using h
  | cons op rest ih =>
      intro st h
      rw [runOps, List.foldl_cons]
      exact ih _ (applyOp_WF h env op)

/-! Entry evolution across manager steps. -/

/-- How a single manager step may change the entry at key `k`, where `d` is
the list of events the step appended to the trace: identity fields are
preserved, the `initialized` flag is monotone and flips exactly at a
publication for `k`, and a failed channel keeps its error and its buffered
value. -/
def EntryEvol (d : List Event) (k : Nat) (c c' : Cache) : Prop :=
  (c'.key = c.key ∧ c'.lastArgs = c.lastArgs ∧ c'.context = c.context) ∧
  (c.initialized = true → c'.initialized = true) ∧
  (c.initialized = false → c'.initialized = true → ∃ v, Event.publish k v ∈ d) ∧
  ((∃ v, Event.publish k v ∈ d) → c'.initialized = true) ∧
  (∀ e, c.subject.errorVal = some e →
     c'.subject.errorVal = some e ∧ c'.subject.buffer = c.subject.buffer)

/-- A manager step from `st` to `st'`: the trace grows by a suffix `d` and
every entry surviving the step evolves per `EntryEvol`. -/
def EvolveOK (st st' : MState) : Prop :=
  ∃ d, st'.trace = st.trace ++ d ∧
    ∀ k c c', alookup st.cacheStore k = some c →
      alookup st'.cacheStore k = some c' → EntryEvol d k c c'

/-- A step that never inserts an entry at a key that was absent. -/
def NoCreate (st st' : MState) : Prop :=
  ∀ k, alookup st.cacheStore k = none → alookup st'.cacheStore k = none

theorem entryEvol_same (d : List Event) (k : Nat) (c : Cache)
    (hnp : ∀ v, Event.publish k v ∉ d) : EntryEvol d k c c := by
  refine ⟨⟨rfl, rfl, rfl⟩, fun h => h, ?_, ?_, fun e he => ⟨he, rfl⟩⟩
  · intro h1 h2
    rw [h1] at h2
    cases h2
  · rintro ⟨v, hv⟩
    exact absurd hv (hnp v)

theorem entryEvol_nil (k : Nat) (c : Cache) : EntryEvol [] k c c :=
  entryEvol_same [] k c (by simp)

theorem entryEvol_trans {d1 d2 : List Event} {k : Nat} {c cm c' : Cache}
    (h1 : EntryEvol d1 k c cm) (h2 : EntryEvol d2 k cm c') :
    EntryEvol (d1 ++ d2) k c c' := by
  obtain ⟨⟨hk1, ha1, hc1⟩, hm1, hf1, hp1, he1⟩ := h1
  obtain ⟨⟨hk2, ha2, hc2⟩, hm2, hf2, hp2, he2⟩ := h2
  refine ⟨⟨hk2.trans hk1, ha2.trans ha1, hc2.trans hc1⟩,
    fun h => hm2 (hm1 h), ?_, ?_, ?_⟩
  · intro hc hc'
    cases hm : cm.initialized with
    | true =>
        obtain ⟨v, hv⟩ := hf1 hc hm
        exact ⟨v, List.mem_append.mpr (Or.inl hv)⟩
    | false =>
        obtain ⟨v, hv⟩ := hf2 hm hc'
        exact ⟨v, List.mem_append.mpr (Or.inr hv)⟩
  · rintro ⟨v, hv⟩
    rcases List.mem_append.mp hv with h | h
    · exact hm2 (hp1 ⟨v, h⟩)
    · exact hp2 ⟨v, h⟩
  · intro e he
    obtain ⟨hev, hb1⟩ := he1 e he
    obtain ⟨hev2, hb2⟩ := he2 e hev
    exact ⟨hev2, hb2.trans hb1⟩

theorem evolveOK_refl (st : MState) : EvolveOK st st := by
  refine ⟨[], by simp, ?_⟩
  intro k c c' h1 h2
  rw [h1] at h2
  obtain rfl := Option.some.inj h2
  exact entryEvol_nil k c

theorem evolveOK_trans {st1 st2 st3 : MState} (h12 : EvolveOK st1 st2)
    (h23 : EvolveOK st2 st3) (hnc : NoCreate st2 st3) : EvolveOK st1 st3 := by
  obtain ⟨d1, ht1, he1⟩ := h12
  obtain ⟨d2, ht2, he2⟩ := h23
  refine ⟨d1 ++ d2, by rw [ht2, ht1, List.append_assoc], ?_⟩
  intro k c c' hl1 hl3
  cases hm : alookup st2.cacheStore k with
  | none =>
      rw [hnc k hm] at hl3
      cases hl3
  | some cm => exact entryEvol_trans (he1 k c cm hl1 hm) (he2 k cm c' hm hl3)

theorem noCreate_refl (st : MState) : NoCreate st st := fun _ h => h

theorem noCreate_trans {st1 st2 st3 : MState} (h12 : NoCreate st1 st2)
    (h23 : NoCreate st2 st3) : NoCreate st1 st3 := fun k h => h23 k (h12 k h)

theorem evolve_aupdate {st st' : MState} {cache cnew : Cache} {d : List Event}
    (hal : alookup st.cacheStore cache.key = some cache)
    (hs : st'.cacheStore = aupdate st.cacheStore cache.key cnew)
    (ht : st'.trace = st.trace ++ d)
    (hee : EntryEvol d cache.key cache cnew)
    (hnp : ∀ k v, ¬ cache.key = k → Event.publish k v ∉ d) :
    EvolveOK st st' ∧ NoCreate st st' := by
  constructor
  · refine ⟨d, ht, ?_⟩
    intro k c c' h1 h2
    rw [hs, aupdate, alookup_amodify] at h2
    by_cases hk : cache.key = k
    · subst hk
      rw [h1] at h2
      rw [if_pos rfl] at h2
      simp only [Option.map_some'] at h2
      obtain rfl := Option.some.inj h2
      rw [h1] at hal
      obtain rfl := Option.some.inj hal
      exact hee
    · rw [if_neg hk, h1] at h2
      obtain rfl := Option.some.inj h2
      exact entryEvol_same d k c (fun v => hnp k v hk)
  · intro k hk
    rw [hs, aupdate, alookup_amodify]
    by_cases h : cache.key = k
    · subst h
      rw [if_pos rfl, hk]
      rfl
    · rw [if_neg h]
      exact hk

theorem getAndEnsure_evolve (st : MState) (key args context : Nat) :
    EvolveOK st (getAndEnsureCache st key args context).2 := by
  unfold getAndEnsureCache
  cases hl : alookup st.cacheStore key with
  | some c => exact evolveOK_refl st
  | none =>
      refine ⟨[], by simp, ?_⟩
      intro k c c' h1 h2
      simp only [alookup_aset] at h2
      by_cases hk : key = k
      · subst hk
        rw [hl] at h1
        cases h1
      · rw [if_neg hk, h1] at h2
        obtain rfl := Option.some.inj h2
        exact entryEvol_nil k c

theorem sweep_evolve {st : MState} (h : WF st) (ex : Option Nat) :
    EvolveOK st (removeUnobservedCaches st ex) ∧
    NoCreate st (removeUnobservedCaches st ex) := by
  constructor
  · refine ⟨[], by simp [removeUnobservedCaches], ?_⟩
    intro k c c' h1 h2
    simp only [removeUnobservedCaches] at h2
    obtain ⟨h2', _⟩ := alookup_filter_nodup h.1 h2
    rw [h1] at h2'
    obtain rfl := Option.some.inj h2'
    exact entryEvol_nil k c
  · intro k hk
    simp only [removeUnobservedCaches]
    exact alookup_filter_none hk

theorem refreshCacheData_evolve {st : MState} {cache : Cache} (env : Env) (now : Nat)
    (hal : alookup st.cacheStore cache.key = some cache) :
    EvolveOK st (refreshCacheData env now st cache) ∧
    NoCreate st (refreshCacheData env now st cache) := by
  cases hp : env.producer cache.context cache.lastArgs with
  | error e =>
      rw [refreshCacheData_producer_error hp]
      refine evolve_aupdate hal rfl rfl ?_ ?_
      · refine ⟨⟨rfl, rfl, rfl⟩, fun h => h, ?_, ?_, ?_⟩
        · intro h1 h2
          simp only [h1] at h2
          cases h2
        · rintro ⟨v, hv⟩
          simp at hv
        · intro e0 he0
          simp [subject_error_stopped he0, he0]
      · intro k v hk hv
        simp at hv
  | ok d =>
      cases hs : env.storeResult cache.key ⟨d, env.maxAgeInMS, now⟩ with
      | some e =>
          rw [refreshCacheData_store_error hp hs]
          refine evolve_aupdate hal rfl rfl ?_ ?_
          · refine ⟨⟨rfl, rfl, rfl⟩, fun h => h, ?_, ?_, ?_⟩
            · intro h1 h2
              simp only [h1] at h2
              cases h2
            · rintro ⟨v, hv⟩
              simp at hv
            · intro e0 he0
              simp [subject_error_stopped he0, he0]
          · intro k v hk hv
            simp at hv
      | none =>
          rw [refreshCacheData_success hp hs]
          refine evolve_aupdate hal rfl rfl ?_ ?_
          · refine ⟨⟨rfl, rfl, rfl⟩, fun _ => rfl, ?_, fun _ => rfl, ?_⟩
            · intro h1 h2
              exact ⟨d, by simp⟩
            · intro e0 he0
              simp [setCacheData, subject_next_stopped he0, he0]
          · intro k v hk hv
            simp at hv
            exact hk hv.1.symm

theorem refreshCacheIfOutOfData_evolve {st : MState} {cache : Cache} (env : Env)
    (now key : Nat) (hal : alookup st.cacheStore cache.key = some cache) :
    EvolveOK st (refreshCacheIfOutOfData env now st key cache) ∧
    NoCreate st (refreshCacheIfOutOfData env now st key cache) := by
  cases hb : cacheDataNeedsRefresh (alookup st.storage key) now with
  | true =>
      rw [refreshCacheIfOutOfData_needs cache hb]
      exact refreshCacheData_evolve env now hal
  | false =>
      cases hcd : alookup st.storage key with
      | none =>
          rw [hcd] at hb
          simp [cacheDataNeedsRefresh] at hb
      | some r =>
          cases hi : cache.initialized with
          | true =>
              rw [refreshCacheIfOutOfData_fresh_init hb hi]
              exact ⟨evolveOK_refl st, noCreate_refl st⟩
          | false =>
              rw [refreshCacheIfOutOfData_fresh_uninit hb hcd hi]
              refine evolve_aupdate hal rfl rfl ?_ ?_
              · refine ⟨⟨rfl, rfl, rfl⟩, fun _ => rfl, ?_, fun _ => rfl, ?_⟩
                · intro h1 h2
                  exact ⟨r.data, by simp⟩
                · intro e0 he0
                  simp [setCacheData, subject_next_stopped he0, he0]
              · intro k v hk hv
                simp at hv
                exact hk hv.1.symm

theorem removeStoredRecords_evolve (st : MState) (ks : List Nat) :
    EvolveOK st (removeStoredRecords st ks) ∧
    NoCreate st (removeStoredRecords st ks) := by
  constructor
  · refine ⟨[Event.storageRemove ks], rfl, ?_⟩
    intro k c c' h1 h2
    rw [show (removeStoredRecords st ks).cacheStore = st.cacheStore from rfl, h1] at h2
    obtain rfl := Option.some.inj h2
    exact entryEvol_same _ k c (by intro v hv; simp at hv)
  · intro k hk
    exact hk

theorem evolve_amodify_subject {st st' : MState} {key : Nat} {g : Subject → Subject}
    (hg1 : ∀ s, (g s).errorVal = s.errorVal) (hg2 : ∀ s, (g s).buffer = s.buffer)
    (hs : st'.cacheStore = amodify st.cacheStore key (fun c => { c with subject := g c.subject }))
    (ht : st'.trace = st.trace) :
    EvolveOK st st' ∧ NoCreate st st' := by
  constructor
  · refine ⟨[], by simp [ht], ?_⟩
    intro k c c' h1 h2
    rw [hs, alookup_amodify] at h2
    by_cases hk : key = k
    · subst hk
      rw [if_pos rfl, h1] at h2
      simp only [Option.map_some'] at h2
      obtain rfl := Option.some.inj h2
      refine ⟨⟨rfl, rfl, rfl⟩, fun h => h, ?_, ?_, ?_⟩
      · intro h1' h2'
        simp only [h1'] at h2'
        cases h2'
      · rintro ⟨v, hv⟩
        simp at hv
      · intro e he
        exact ⟨(hg1 c.subject).trans he, hg2 c.subject⟩
    · rw [if_neg hk, h1] at h2
      obtain rfl := Option.some.inj h2
      exact entryEvol_nil k c
  · intro k hk
    rw [hs, alookup_amodify]
    by_cases h : key = k
    · subst h
      rw [if_pos rfl, hk]
      rfl
    · rw [if_neg h]
      exact hk

theorem subscribeEntry_evolve (st : MState) (key : Nat) :
    EvolveOK st (subscribeEntry st key) ∧ NoCreate st (subscribeEntry st key) :=
  @evolve_amodify_subject st (subscribeEntry st key) key
    (fun s => { s with observers := s.observers + 1 })
    (fun _ => rfl) (fun _ => rfl) rfl rfl

theorem unsubscribeEntry_evolve (st : MState) (key : Nat) :
    EvolveOK st (unsubscribeEntry st key) ∧ NoCreate st (unsubscribeEntry st key) :=
  @evolve_amodify_subject st (unsubscribeEntry st key) key
    (fun s => { s with observers := s.observers - 1 })
    (fun _ => rfl) (fun _ => rfl) rfl rfl

theorem runRefreshAll_evolve (env : Env) (now : Nat) :
    ∀ (targets : List Nat) (st : MState), WF st →
      EvolveOK st (runRefreshAll env now st targets) ∧
      NoCreate st (runRefreshAll env now st targets) := by
  intro targets
  induction targets with
  | nil =>
      intro st h
      exact ⟨evolveOK_refl st, noCreate_refl st⟩
  | cons k rest ih =>
      intro st h
      rw [runRefreshAll, List.foldl_cons]
      cases hl : alookup st.cacheStore k with
      | none => exact ih st h
      | some c =>
          have hck : c.key = k := h.2 (k, c) (alookup_mem hl)
          have hal : alookup st.cacheStore c.key = some c := by
            rw [hck]
            exact hl
          have e1 := refreshCacheData_evolve env now hal
          have h1 := refreshCacheData_WF h env now c
          have e2 := ih (refreshCacheData env now st c) h1
          exact ⟨evolveOK_trans e1.1 e2.1 e2.2, noCreate_trans e1.2 e2.2⟩

theorem getCache_evolve {st : MState} (h : WF st) (env : Env)
    (now key args context : Nat) :
    EvolveOK st (getCache env now st key args context) := by
  obtain ⟨hwf1, hlk, hck⟩ := getAndEnsure_WF h key args context
  have e1 := getAndEnsure_evolve st key args context
  have e2 := sweep_evolve hwf1 (some key)
  have hlk2 : alookup (removeUnobservedCaches (getAndEnsureCache st key args context).2
      (some key)).cacheStore key =
      some (getAndEnsureCache st key args context).1 := by
    simp only [removeUnobservedCaches]
    rw [alookup_filter_keep _ _ key (by intro v; simp)]
    exact hlk
  have hal : alookup (removeUnobservedCaches (getAndEnsureCache st key args context).2
      (some key)).cacheStore (getAndEnsureCache st key args context).1.key =
      some (getAndEnsureCache st key args context).1 := by
    rw [hck]
    exact hlk2
  have e3 := refreshCacheIfOutOfData_evolve env now key hal
  exact evolveOK_trans (evolveOK_trans e1 e2.1 e2.2) e3.1 e3.2

theorem invalidate_evolve {st : MState} (h : WF st) (env : Env) (now : Nat)
    (cacheKey : Option Nat) :
    EvolveOK st (invalidateAndUpdateAsync env now st cacheKey) := by
  have e1 := sweep_evolve h none
  have h1 := sweep_WF h none
  have e2 := removeStoredRecords_evolve (removeUnobservedCaches st none)
    (invalidateTargets (removeUnobservedCaches st none) cacheKey)
  have h2 := removeStoredRecords_WF h1
    (invalidateTargets (removeUnobservedCaches st none) cacheKey)
  have e3 := runRefreshAll_evolve env now
    (invalidateTargets (removeUnobservedCaches st none) cacheKey) _ h2
  exact evolveOK_trans (evolveOK_trans e1.1 e2.1 e2.2) e3.1 e3.2

theorem applyOp_evolve {st : MState} (h : WF st) (env : Env) (op : Op) :
    EvolveOK st (applyOp env st op) := by
  cases op with
  | read k a c n => exact getCache_evolve h env n k a c
  | invalidate ck n => exact invalidate_evolve h env n ck
  | subscribe k => exact (subscribeEntry_evolve st k).1
  | unsubscribe k => exact (unsubscribeEntry_evolve st k).1

/-! Trace lemmas: producer invocations and durable-store writes. -/

theorem producerCalls_append (a b : List Event) :
    producerCalls (a ++ b) = producerCalls a ++ producerCalls b := by
  simp [producerCalls, List.filterMap_append]

theorem storeWrites_append (a b : List Event) :
    storeWrites (a ++ b) = storeWrites a ++ storeWrites b := by
  simp [storeWrites, List.filterMap_append]

theorem refreshCacheData_producerCalls (env : Env) (now : Nat) (st : MState)
    (cache : Cache) :
    producerCalls (refreshCacheData env now st cache).trace =
      producerCalls st.trace ++ [(cache.context, cache.lastArgs)] := by
  cases hp : env.producer cache.context cache.lastArgs with
  | error e =>
      rw [refreshCacheData_producer_error hp]
      simp [producerCalls, List.filterMap_append]
  | ok d =>
      cases hs : env.storeResult cache.key ⟨d, env.maxAgeInMS, now⟩ with
      | some e =>
          rw [refreshCacheData_store_error hp hs]
          simp [producerCalls, List.filterMap_append]
      | none =>
          rw [refreshCacheData_success hp hs]
          simp [producerCalls, List.filterMap_append]

theorem targetCall_aupdate {st st' : MState} {cache cnew : Cache}
    (hal : alookup st.cacheStore cache.key = some cache)
    (hs : st'.cacheStore = aupdate st.cacheStore cache.key cnew)
    (hc : cnew.context = cache.context) (ha : cnew.lastArgs = cache.lastArgs) :
    targetCall st' = targetCall st := by
  funext k
  unfold targetCall
  rw [hs, aupdate, alookup_amodify]
  by_cases hk : cache.key = k
  · subst hk
    rw [if_pos rfl, hal]
    simp [hc, ha]
  · rw [if_neg hk]

theorem refreshCacheData_targetCall {st : MState} {cache : Cache} (env : Env)
    (now : Nat) (hal : alookup st.cacheStore cache.key = some cache) :
    targetCall (refreshCacheData env now st cache) = targetCall st := by
  cases hp : env.producer cache.context cache.lastArgs with
  | error e =>
      rw [refreshCacheData_producer_error hp]
      exact targetCall_aupdate hal rfl rfl rfl
  | ok d =>
      cases hs : env.storeResult cache.key ⟨d, env.maxAgeInMS, now⟩ with
      | some e =>
          rw [refreshCacheData_store_error hp hs]
          exact targetCall_aupdate hal rfl rfl rfl
      | none =>
          rw [refreshCacheData_success hp hs]
          exact targetCall_aupdate hal rfl rfl rfl

theorem runRefreshAll_producerCalls (env : Env) (now : Nat) :
    ∀ (targets : List Nat) (st : MState), WF st →
      producerCalls (runRefreshAll env now st targets).trace =
        producerCalls st.trace ++ targets.filterMap (targetCall st) := by
  intro targets
  induction targets with
  | nil =>
      intro st h
      simp [runRefreshAll]
  | cons k rest ih =>
      intro st h
      rw [runRefreshAll, List.foldl_cons]
      cases hl : alookup st.cacheStore k with
      | none =>
          have htc : targetCall st k = none := by
            unfold targetCall
            rw [hl]
            rfl
          have hgoal := ih st h
          rw [runRefreshAll] at hgoal
          rw [List.filterMap_cons, htc]
          exact hgoal
      | some c =>
          have hck : c.key = k := h.2 (k, c) (alookup_mem hl)
          have hal : alookup st.cacheStore c.key = some c := by
            rw [hck]
            exact hl
          have hwf1 := refreshCacheData_WF h env now c
          have hih := ih (refreshCacheData env now st c) hwf1
          rw [runRefreshAll] at hih
          have htc : targetCall st k = some (c.context, c.lastArgs) := by
            unfold targetCall
            rw [hl]
            rfl
          rw [List.filterMap_cons, htc, hih,
            refreshCacheData_targetCall env now hal,
            refreshCacheData_producerCalls env now st c]
          simp

/-- All durable-store write calls in the trace so far carried the
constructor-supplied max age. -/
def WritesOK (env : Env) (st : MState) : Prop :=
  ∀ p ∈ storeWrites st.trace, p.2.maxAgeMS = env.maxAgeInMS

theorem writesOK_of_trace_eq {env : Env} {st st' : MState}
    (h : WritesOK env st) (ht : st'.trace = st.trace) : WritesOK env st' := by
  intro p hp
  rw [ht] at hp
  exact h p hp

theorem refreshCacheData_writesOK {env : Env} {st : MState} (h : WritesOK env st)
    (now : Nat) (cache : Cache) : WritesOK env (refreshCacheData env now st cache) := by
  cases hp : env.producer cache.context cache.lastArgs with
  | error e =>
      rw [refreshCacheData_producer_error hp]
      intro p hp2
      rw [show ({ st with
          cacheStore := aupdate st.cacheStore cache.key
            { cache with subject := cache.subject.error e },
          trace := st.trace ++ [Event.producerCall cache.context cache.lastArgs,
            Event.failChannel cache.key e] } : MState).trace =
          st.trace ++ [Event.producerCall cache.context cache.lastArgs,
            Event.failChannel cache.key e] from rfl, storeWrites_append] at hp2
      rcases List.mem_append.mp hp2 with h1 | h1
      · exact h p h1
      · simp [storeWrites] at h1
  | ok d =>
      cases hs : env.storeResult cache.key ⟨d, env.maxAgeInMS, now⟩ with
      | some e =>
          rw [refreshCacheData_store_error hp hs]
          intro p hp2
          rw [show ({ st with
              cacheStore := aupdate st.cacheStore cache.key
                { cache with subject := cache.subject.error e },
              trace := st.trace ++ [Event.producerCall cache.context cache.lastArgs,
                Event.storeWrite cache.key ⟨d, env.maxAgeInMS, now⟩,
                Event.failChannel cache.key e] } : MState).trace =
              st.trace ++ [Event.producerCall cache.context cache.lastArgs,
                Event.storeWrite cache.key ⟨d, env.maxAgeInMS, now⟩,
                Event.failChannel cache.key e] from rfl, storeWrites_append] at hp2
          rcases List.mem_append.mp hp2 with h1 | h1
          · exact h p h1
          · simp [storeWrites] at h1
            rw [h1]
      | none =>
          rw [refreshCacheData_success hp hs]
          intro p hp2
          rw [show ({ st with
              cacheStore := aupdate st.cacheStore cache.key (setCacheData cache d),
              storage := aset st.storage cache.key ⟨d, env.maxAgeInMS, now⟩,
              trace := st.trace ++ [Event.producerCall cache.context cache.lastArgs,
                Event.storeWrite cache.key ⟨d, env.maxAgeInMS, now⟩,
                Event.publish cache.key d] } : MState).trace =
              st.trace ++ [Event.producerCall cache.context cache.lastArgs,
                Event.storeWrite cache.key ⟨d, env.maxAgeInMS, now⟩,
                Event.publish cache.key d] from rfl, storeWrites_append] at hp2
          rcases List.mem_append.mp hp2 with h1 | h1
          · exact h p h1
          · simp [storeWrites] at h1
            rw [h1]

theorem refreshCacheIfOutOfData_writesOK {env : Env} {st : MState}
    (h : WritesOK env st) (now key : Nat) (cache : Cache) :
    WritesOK env (refreshCacheIfOutOfData env now st key cache) := by
  cases hb : cacheDataNeedsRefresh (alookup st.storage key) now with
  | true =>
      rw [refreshCacheIfOutOfData_needs cache hb]
      exact refreshCacheData_writesOK h now cache
  | false =>
      cases hcd : alookup st.storage key with
      | none =>
          rw [hcd] at hb
          simp [cacheDataNeedsRefresh] at hb
      | some r =>
          cases hi : cache.initialized with
          | true =>
              rw [refreshCacheIfOutOfData_fresh_init hb hi]
              exact h
          | false =>
              rw [refreshCacheIfOutOfData_fresh_uninit hb hcd hi]
              intro p hp2
              rw [show ({ st with
                  cacheStore := aupdate st.cacheStore cache.key
                    (setCacheData cache r.data),
                  trace := st.trace ++ [Event.publish cache.key r.data] } :
                    MState).trace =
                  st.trace ++ [Event.publish cache.key r.data] from rfl,
                storeWrites_append] at hp2
              rcases List.mem_append.mp hp2 with h1 | h1
              · exact h p h1
              · simp [storeWrites] at h1

theorem runRefreshAll_writesOK {env : Env} (now : Nat) :
    ∀ (targets : List Nat) (st : MState), WritesOK env st →
      WritesOK env (runRefreshAll env now st targets) := by
  intro targets
  induction targets with
  | nil =>
      intro st h
      exact h
  | cons k rest ih =>
      intro st h
      rw [runRefreshAll, List.foldl_cons]
      cases hl : alookup st.cacheStore k with
      | none => exact ih st h
      | some c => exact ih _ (refreshCacheData_writesOK h now c)

theorem applyOp_writesOK {env : Env} {st : MState} (h : WritesOK env st) (op : Op) :
    WritesOK env (applyOp env st op) := by
  cases op with
  | read k a c n =>
      show WritesOK env (getCache env n st k a c)
      unfold getCache
      refine refreshCacheIfOutOfData_writesOK ?_ n k _
      refine writesOK_of_trace_eq ?_ rfl
      unfold getAndEnsureCache
      cases hl : alookup st.cacheStore k with
      | some c2 => exact h
      | none => exact h
  | invalidate ck n =>
      show WritesOK env (invalidateAndUpdateAsync env n st ck)
      unfold invalidateAndUpdateAsync
      refine runRefreshAll_writesOK n _ _ ?_
      intro p hp
      rw [show (removeStoredRecords (removeUnobservedCaches st none)
          (invalidateTargets (removeUnobservedCaches st none) ck)).trace =
          st.trace ++ [Event.storageRemove
            (invalidateTargets (removeUnobservedCaches st none) ck)] from rfl,
        storeWrites_append] at hp
      rcases List.mem_append.mp hp with h1 | h1
      · exact h p h1
      · simp [storeWrites] at h1
  | subscribe k => exact h
  | unsubscribe k => exact h

theorem runOps_writesOK {env : Env} : ∀ (ops : List Op) (st : MState),
    WritesOK env st → WritesOK env (runOps env st ops) := by
  intro ops
  induction ops with
  | nil =>
      intro st h
      exact h
  | cons op rest ih =>
      intro st h
      rw [runOps, List.foldl_cons]
      exact ih _ (applyOp_writesOK h op)

/-! Claim theorems. -/

/-- C2: on every successful run of the Refresh Pipeline, exactly one
durable-store write occurs, storing value, the manager max age and
createdAt = now under the entry's key; it precedes the publication of the
value on the entry's channel, after which the entry is marked
initialized. -/
theorem c2_refresh_success_write_then_publish (env : Env) (now : Nat) (st : MState)
    (cache : Cache) (d : Nat)
    (hp : env.producer cache.context cache.lastArgs = Except.ok d)
    (hs : env.storeResult cache.key ⟨d, env.maxAgeInMS, now⟩ = none) :
    refreshCacheData env now st cache =
      { st with cacheStore := aupdate st.cacheStore cache.key (setCacheData cache d),
                storage := aset st.storage cache.key ⟨d, env.maxAgeInMS, now⟩,
                trace := st.trace ++
                  [Event.producerCall cache.context cache.lastArgs,
                   Event.storeWrite cache.key ⟨d, env.maxAgeInMS, now⟩,
                   Event.publish cache.key d] } ∧
    storeWrites [Event.producerCall cache.context cache.lastArgs,
      Event.storeWrite cache.key ⟨d, env.maxAgeInMS, now⟩,
      Event.publish cache.key d] = [(cache.key, ⟨d, env.maxAgeInMS, now⟩)] ∧
    (setCacheData cache d).initialized = true ∧
    (setCacheData cache d).subject = cache.subject.next d ∧
    alookup (aset st.storage cache.key ⟨d, env.maxAgeInMS, now⟩) cache.key =
      some ⟨d, env.maxAgeInMS, now⟩ :=
  ⟨refreshCacheData_success hp hs st, by simp [storeWrites], rfl, rfl,
   by simp [alookup_aset]⟩

/-- Concrete environment for the C2 witness: producer adds context and
args, max age 42, durable store always accepts writes. -/
def envC2 : Env := ⟨fun c a => Except.ok (c + a), 42, fun _ _ => none⟩

/-- Concrete cache entry for the C2 witness. -/
def cacheC2 : Cache := ⟨1, 2, 3, Subject.new, false⟩

theorem c2_refresh_success_write_then_publish_witness :
    refreshCacheData envC2 7 initState cacheC2 =
      { cacheStore := [], storage := [(1, ⟨5, 42, 7⟩)],
        trace := [Event.producerCall 3 2, Event.storeWrite 1 ⟨5, 42, 7⟩,
          Event.publish 1 5] } := by
  have h := c2_refresh_success_write_then_publish envC2 7 initState cacheC2 5 rfl rfl
  rw [h.1]
  decide

/-- C10: every record the manager ever writes to the durable store, over
any sequence of operations from the initial state, carries the single max
age supplied to the constructor. -/
theorem c10_max_age_manager_wide (env : Env) (ops : List Op) (p : Nat × CacheRecord)
    (hp : p ∈ storeWrites (runOps env initState ops).trace) :
    p.2.maxAgeMS = env.maxAgeInMS :=
  runOps_writesOK ops initState
    (by intro q hq; simp [initState, storeWrites] at hq) p hp

/-- Concrete environment for the C10 witness. -/
def envC10 : Env := ⟨fun _ _ => Except.ok 5, 42, fun _ _ => none⟩

theorem c10_max_age_manager_wide_witness :
    (1, (⟨5, 42, 0⟩ : CacheRecord)) ∈
      storeWrites (runOps envC10 initState [Op.read 1 0 0 0]).trace ∧
    (⟨5, 42, 0⟩ : CacheRecord).maxAgeMS = envC10.maxAgeInMS :=
  ⟨by decide,
   c10_max_age_manager_wide envC10 [Op.read 1 0 0 0] (1, ⟨5, 42, 0⟩) (by decide)⟩

/-- C1: on every read the staleness check runs against the swept state, and
it triggers the Refresh Pipeline iff the durable store has no record for
the key or the record is outdated (now >= createdAt + maxAge); when no
refresh is needed but the entry is uninitialized and a record exists, the
stored payload is published on the entry's channel and the entry is marked
initialized, with no producer invocation on that path; when no refresh is
needed and the entry is initialized, nothing happens. -/
theorem c1_staleness_check (env : Env) (now : Nat) (st : MState) (key : Nat)
    (cache : Cache) :
    (∀ args context, getCache env now st key args context =
       refreshCacheIfOutOfData env now
         (removeUnobservedCaches (getAndEnsureCache st key args context).2 (some key))
         key (getAndEnsureCache st key args context).1) ∧
    (cacheDataNeedsRefresh (alookup st.storage key) now = true ↔
       alookup st.storage key = none ∨
         ∃ r, alookup st.storage key = some r ∧ r.createdAt + r.maxAgeMS ≤ now) ∧
    (cacheDataNeedsRefresh (alookup st.storage key) now = true →
       refreshCacheIfOutOfData env now st key cache = refreshCacheData env now st cache) ∧
    (producerCalls (refreshCacheIfOutOfData env now st key cache).trace ≠
       producerCalls st.trace ↔
       cacheDataNeedsRefresh (alookup st.storage key) now = true) ∧
    (∀ r, alookup st.storage key = some r →
       cacheDataNeedsRefresh (alookup st.storage key) now = false →
       (cache.initialized = false →
          refreshCacheIfOutOfData env now st key cache =
            { st with cacheStore := aupdate st.cacheStore cache.key
                        (setCacheData cache r.data),
                      trace := st.trace ++ [Event.publish cache.key r.data] } ∧
          (setCacheData cache r.data).initialized = true ∧
          (setCacheData cache r.data).subject = cache.subject.next r.data) ∧
       (cache.initialized = true →
          refreshCacheIfOutOfData env now st key cache = st)) := by
  refine ⟨fun args context => rfl, ?_, fun hb => refreshCacheIfOutOfData_needs cache hb,
    ?_, ?_⟩
  · cases hcd : alookup st.storage key with
    | none => simp [cacheDataNeedsRefresh]
    | some r => simp [cacheDataNeedsRefresh, isCacheOutdated]
  · cases hb : cacheDataNeedsRefresh (alookup st.storage key) now with
    | true =>
        rw [refreshCacheIfOutOfData_needs cache hb,
          refreshCacheData_producerCalls env now st cache]
        simp
    | false =>
        cases hcd : alookup st.storage key with
        | none =>
            rw [hcd] at hb
            simp [cacheDataNeedsRefresh] at hb
        | some r =>
            cases hi : cache.initialized with
            | true =>
                rw [refreshCacheIfOutOfData_fresh_init hb hi]
                simp
            | false =>
                rw [refreshCacheIfOutOfData_fresh_uninit hb hcd hi]
                simp [producerCalls_append, producerCalls]
  · intro r hr hb2
    constructor
    · intro hi
      exact ⟨refreshCacheIfOutOfData_fresh_uninit hb2 hr hi, rfl, rfl⟩
    · intro hi
      exact refreshCacheIfOutOfData_fresh_init hb2 hi

/-- Concrete environment for the C1 witness. -/
def envC1 : Env := ⟨fun _ _ => Except.ok 5, 10, fun _ _ => none⟩

/-- Concrete uninitialized entry for the C1 witness. -/
def cacheC1 : Cache := ⟨1, 0, 0, Subject.new, false⟩

/-- Concrete state for the C1 witness: the entry is present and a fresh
record (createdAt 0, max age 10, payload 9) is stored. -/
def stC1 : MState := ⟨[(1, cacheC1)], [(1, ⟨9, 10, 0⟩)], []⟩

theorem c1_staleness_check_witness :
    (refreshCacheIfOutOfData envC1 5 initState 1 cacheC1 =
       refreshCacheData envC1 5 initState cacheC1) ∧
    (refreshCacheIfOutOfData envC1 5 stC1 1 cacheC1 =
       { stC1 with cacheStore := [(1, setCacheData cacheC1 9)],
                   trace := [Event.publish 1 9] }) := by
  constructor
  · exact (c1_staleness_check envC1 5 initState 1 cacheC1).2.2.1 (by decide)
  · have h := ((c1_staleness_check envC1 5 stC1 1 cacheC1).2.2.2.2 ⟨9, 10, 0⟩
      (by decide) (by decide)).1 rfl
    exact h.1.trans (by decide)

/-- C5: the Garbage Collector sweep removes exactly the entries whose key
differs from the exception and whose channel has no active subscribers,
leaving all other entries (and the rest of the state) untouched; every
read invokes the sweep with the key being read as the exception, and
invalidation invokes it with no exception as its first step. -/
theorem c5_gc_sweep (st : MState) (ex : Option Nat) :
    (∀ p : Nat × Cache, p ∈ (removeUnobservedCaches st ex).cacheStore ↔
       p ∈ st.cacheStore ∧ (some p.1 = ex ∨ p.2.subject.observed = true)) ∧
    ((removeUnobservedCaches st ex).storage = st.storage ∧
     (removeUnobservedCaches st ex).trace = st.trace) ∧
    (∀ env now key args context, getCache env now st key args context =
       refreshCacheIfOutOfData env now
         (removeUnobservedCaches (getAndEnsureCache st key args context).2 (some key))
         key (getAndEnsureCache st key args context).1) ∧
    (∀ env now ck, invalidateAndUpdateAsync env now st ck =
       runRefreshAll env now
         (removeStoredRecords (removeUnobservedCaches st none)
           (invalidateTargets (removeUnobservedCaches st none) ck))
         (invalidateTargets (removeUnobservedCaches st none) ck)) := by
  refine ⟨?_, ⟨rfl, rfl⟩, fun env now key args context => rfl, fun env now ck => rfl⟩
  intro p
  simp [removeUnobservedCaches, List.mem_filter, Subject.observed]

/-- Concrete observed entry (one active subscriber) for sweep witnesses. -/
def cacheObs : Cache := ⟨2, 0, 0, ⟨none, none, 1⟩, false⟩

/-- Concrete state for the C5 witness: an unobserved entry at key 1 and an
observed entry at key 2. -/
def stC5 : MState := ⟨[(1, cacheC1), (2, cacheObs)], [], []⟩

theorem c5_gc_sweep_witness :
    (2, cacheObs) ∈ (removeUnobservedCaches stC5 none).cacheStore ∧
    (1, cacheC1) ∉ (removeUnobservedCaches stC5 none).cacheStore := by
  constructor
  · exact ((c5_gc_sweep stC5 none).1 (2, cacheObs)).mpr ⟨by decide, Or.inr (by decide)⟩
  · intro h
    have h2 := ((c5_gc_sweep stC5 none).1 (1, cacheC1)).mp h
    revert h2
    decide

/-- C6: invalidation first sweeps with no exception, then computes the
target key set ({key} when a key is given, else every key then in the
entry map), then removes the targets' durable records, and then refreshes
every target entry still present unconditionally (the refreshes perform no
staleness read: they call the producer for exactly the surviving targets),
awaiting them before returning. -/
theorem c6_invalidate (env : Env) (now : Nat) (st : MState) (ck : Option Nat) :
    (invalidateAndUpdateAsync env now st ck =
       runRefreshAll env now
         (removeStoredRecords (removeUnobservedCaches st none)
           (invalidateTargets (removeUnobservedCaches st none) ck))
         (invalidateTargets (removeUnobservedCaches st none) ck)) ∧
    (∀ k, invalidateTargets st (some k) = [k]) ∧
    (invalidateTargets st none = st.cacheStore.map Prod.fst) ∧
    (∀ ks k2, alookup (removeStoredRecords st ks).storage k2 =
       if k2 ∈ ks then none else alookup st.storage k2) ∧
    (∀ ks, (removeStoredRecords st ks).trace = st.trace ++ [Event.storageRemove ks]) ∧
    (WF st → ∃ d, (invalidateAndUpdateAsync env now st ck).trace =
       st.trace ++ [Event.storageRemove
         (invalidateTargets (removeUnobservedCaches st none) ck)] ++ d ∧
       producerCalls d =
         (invalidateTargets (removeUnobservedCaches st none) ck).filterMap
           (targetCall (removeUnobservedCaches st none))) := by
  refine ⟨rfl, fun k => rfl, rfl, ?_, fun ks => rfl, ?_⟩
  · intro ks k2
    show alookup (st.storage.filter (fun p => decide (¬ p.1 ∈ ks))) k2 = _
    rw [alookup_filter_key st.storage (fun key => decide (¬ key ∈ ks)) k2]
    by_cases hk : k2 ∈ ks
    · simp [hk]
    · simp [hk]
  · intro hwf
    have hwf1 := sweep_WF hwf none
    have hwf2 := removeStoredRecords_WF hwf1
      (invalidateTargets (removeUnobservedCaches st none) ck)
    obtain ⟨d, ht, _⟩ := (runRefreshAll_evolve env now
      (invalidateTargets (removeUnobservedCaches st none) ck)
      (removeStoredRecords (removeUnobservedCaches st none)
        (invalidateTargets (removeUnobservedCaches st none) ck)) hwf2).1
    refine ⟨d, ?_, ?_⟩
    · show (runRefreshAll env now _ _).trace = _
      rw [ht]
      rfl
    · have hpc := runRefreshAll_producerCalls env now
        (invalidateTargets (removeUnobservedCaches st none) ck)
        (removeStoredRecords (removeUnobservedCaches st none)
          (invalidateTargets (removeUnobservedCaches st none) ck)) hwf2
      rw [ht, producerCalls_append] at hpc
      have hcancel := List.append_cancel_left hpc
      rw [hcancel]
      rfl

/-- Concrete environment for the C6 witness. -/
def envC6 : Env := ⟨fun _ _ => Except.ok 8, 10, fun _ _ => none⟩

/-- Concrete state for the C6 witness: one observed entry at key 2 with a
stored record. -/
def stC6 : MState := ⟨[(2, cacheObs)], [(2, ⟨7, 10, 0⟩)], []⟩

theorem c6_invalidate_witness :
    ∃ d, (invalidateAndUpdateAsync envC6 9 stC6 (some 2)).trace =
      stC6.trace ++ [Event.storageRemove
        (invalidateTargets (removeUnobservedCaches stC6 none) (some 2))] ++ d ∧
      producerCalls d =
        (invalidateTargets (removeUnobservedCaches stC6 none) (some 2)).filterMap
          (targetCall (removeUnobservedCaches stC6 none)) :=
  (c6_invalidate envC6 9 stC6 (some 2)).2.2.2.2.2 (by decide)

/-- C8: the per-entry multicast channel has replay-of-latest semantics: a
subscriber attaching after a publication immediately receives exactly the
most recently published value (before any later live values, which follow
the replay by construction), a subscriber attaching before any publication
receives nothing, and every newly created entry starts with a fresh empty
channel. -/
theorem c8_replay_latest (s : Subject) (v : Nat) :
    (s.errorVal = none → Subject.subscribeReplay (Subject.next s v) = [v]) ∧
    ((Subject.next s v).errorVal = s.errorVal) ∧
    Subject.subscribeReplay Subject.new = [] ∧
    Subject.subscribeError Subject.new = none ∧
    (∀ st key args context, alookup st.cacheStore key = none →
       (getAndEnsureCache st key args context).1.subject = Subject.new ∧
       Subject.subscribeReplay (getAndEnsureCache st key args context).1.subject = []) := by
  refine ⟨?_, ?_, rfl, rfl, ?_⟩
  · intro h
    simp [Subject.next, Subject.isStopped, h, Subject.subscribeReplay]
  · by_cases h : s.isStopped
    · simp [Subject.next, h]
    · simp [Subject.next, h]
  · intro st key args context h
    constructor
    · simp [getAndEnsureCache, h]
    · simp [getAndEnsureCache, h, Subject.subscribeReplay, Subject.new]

theorem c8_replay_latest_witness :
    Subject.subscribeReplay (Subject.next Subject.new 5) = [5] :=
  (c8_replay_latest Subject.new 5).1 rfl

/-- Concrete environment for the C3 counterexample: producer always
succeeds with 5, but every durable-store write is rejected with the error
100 + createdAt, so successive failures carry different errors. -/
def envC3 : Env := ⟨fun _ _ => Except.ok 5, 10, fun _ r => some (100 + r.createdAt)⟩

/-- Two reads of key 1, at times 0 and 7. -/
def opsC3 : List Op := [Op.read 1 0 0 0, Op.read 1 0 0 7]

theorem c3_counterexample :
    envC3.storeResult 1 ⟨5, 10, 7⟩ = some 107 ∧
    Event.failChannel 1 107 ∈ (runOps envC3 initState opsC3).trace ∧
    (alookup (runOps envC3 initState opsC3).cacheStore 1).map
      (fun c => c.subject.errorVal) = some (some 100) ∧
    some 100 ≠ some 107 := by
  refine ⟨rfl, by decide, by decide, by decide⟩

/-- C3 (amended): on every Refresh Pipeline run in which the producer
fails, or the durable-store write fails, fail(error) is called on the
entry's channel — terminating it with that error when it was not already
terminated, while an already-terminated channel keeps its original
error — no value is published on it, and in the producer-failure case no
durable-store write is performed. -/
theorem c3_failure_fails_channel (env : Env) (now : Nat) (st : MState)
    (cache : Cache) (e : Nat) :
    (env.producer cache.context cache.lastArgs = Except.error e →
       refreshCacheData env now st cache =
         { st with cacheStore := aupdate st.cacheStore cache.key
                     { cache with subject := cache.subject.error e },
                   trace := st.trace ++
                     [Event.producerCall cache.context cache.lastArgs,
                      Event.failChannel cache.key e] }) ∧
    (∀ d, env.producer cache.context cache.lastArgs = Except.ok d →
       env.storeResult cache.key ⟨d, env.maxAgeInMS, now⟩ = some e →
       refreshCacheData env now st cache =
         { st with cacheStore := aupdate st.cacheStore cache.key
                     { cache with subject := cache.subject.error e },
                   trace := st.trace ++
                     [Event.producerCall cache.context cache.lastArgs,
                      Event.storeWrite cache.key ⟨d, env.maxAgeInMS, now⟩,
                      Event.failChannel cache.key e] }) ∧
    (cache.subject.errorVal = none → (Subject.error cache.subject e).errorVal = some e) ∧
    (∀ e0, cache.subject.errorVal = some e0 →
       (Subject.error cache.subject e).errorVal = some e0) := by
  refine ⟨fun hp => refreshCacheData_producer_error hp now st,
    fun d hp hs => refreshCacheData_store_error hp hs st, ?_, ?_⟩
  · intro h
    simp [Subject.error, Subject.isStopped, h]
  · intro e0 h
    rw [subject_error_stopped h]
    exact h

/-- Concrete environment for the C3 amended witness: the producer always
fails with 9. -/
def envC3w : Env := ⟨fun _ _ => Except.error 9, 10, fun _ _ => none⟩

theorem c3_failure_fails_channel_witness :
    refreshCacheData envC3w 0 initState cacheC1 =
      { cacheStore := [], storage := [],
        trace := [Event.producerCall 0 0, Event.failChannel 1 9] } :=
  ((c3_failure_fails_channel envC3w 0 initState cacheC1 9).1 rfl).trans (by decide)

/-- Concrete environment for the C9 counterexample: producer succeeds with
5; the durable store accepts the write at time 0 and rejects later writes
with error 7. -/
def envC9 : Env := ⟨fun _ _ => Except.ok 5, 10,
  fun _ r => if r.createdAt = 0 then none else some 7⟩

/-- Read key 1 at time 0 (publishes 5), subscribe, then invalidate key 1
at time 50 (producer succeeds but the store write fails, failing the
channel with 7). -/
def opsC9 : List Op := [Op.read 1 0 0 0, Op.subscribe 1, Op.invalidate (some 1) 50]

theorem c9_counterexample :
    Event.failChannel 1 7 ∈ (runOps envC9 initState opsC9).trace ∧
    (alookup (runOps envC9 initState opsC9).cacheStore 1).map
      (fun c => (Subject.subscribeReplay c.subject, Subject.subscribeError c.subject)) =
      some ([5], some 7) ∧
    ([5] : List Nat) ≠ [] := by
  refine ⟨by decide, by decide, by decide⟩

/-- C9 (amended): once an entry's channel has been failed with an error,
the channel is terminal: further publish or fail calls leave it unchanged,
and every subscription made afterward (until the entry is collected and
recreated) observes that same error, receiving no values beyond the replay
of the last value published before the failure (if any); across any
manager operation on a well-formed state, a surviving failed entry keeps
its error and its replay buffer. -/
theorem c9_error_terminal (s : Subject) (e : Nat) :
    (s.errorVal = some e →
       (∀ v, Subject.next s v = s) ∧ (∀ e2, Subject.error s e2 = s) ∧
       Subject.subscribeError s = some e ∧
       Subject.subscribeReplay s = s.buffer.toList) ∧
    (∀ env st op k c c', WF st →
       alookup st.cacheStore k = some c → c.subject.errorVal = some e →
       alookup (applyOp env st op).cacheStore k = some c' →
       Subject.subscribeError c'.subject = some e ∧
       Subject.subscribeReplay c'.subject = Subject.subscribeReplay c.subject) := by
  constructor
  · intro h
    exact ⟨subject_next_stopped h, subject_error_stopped h, h, rfl⟩
  · intro env st op k c c' hwf h1 herr h2
    obtain ⟨d, ht, hent⟩ := applyOp_evolve hwf env op
    have he := (hent k c c' h1 h2).2.2.2.2 e herr
    exact ⟨he.1, by simp [Subject.subscribeReplay, he.2]⟩

/-- Failed entry (error 7, buffered value 5, one subscriber) for the C9
amended witness. -/
def cacheErr : Cache := ⟨1, 0, 0, ⟨some 5, some 7, 1⟩, true⟩

/-- State holding the failed entry for the C9 amended witness. -/
def stC9w : MState := ⟨[(1, cacheErr)], [], []⟩

theorem c9_error_terminal_witness :
    Subject.subscribeError (Subject.mk (some 5) (some 7) 2) = some 7 ∧
    Subject.subscribeReplay (Subject.mk (some 5) (some 7) 2) =
      Subject.subscribeReplay (Subject.mk (some 5) (some 7) 1) :=
  (c9_error_terminal (Subject.mk (some 5) (some 7) 1) 7).2 envC1 stC9w
    (Op.subscribe 1) 1 cacheErr ⟨1, 0, 0, ⟨some 5, some 7, 2⟩, true⟩
    (by decide) (by decide) rfl (by decide)

/-- C4: getOrCreate returns the existing entry for the key when present,
leaving the entry and the whole store unchanged; otherwise it inserts and
returns a new uninitialized entry capturing the supplied arguments and
context; and no read (of any key) ever changes a surviving entry's
captured key, arguments or context. -/
theorem c4_entry_store (st : MState) (key args context : Nat) :
    (∀ c, alookup st.cacheStore key = some c →
       getAndEnsureCache st key args context = (c, st)) ∧
    (alookup st.cacheStore key = none →
       getAndEnsureCache st key args context =
         (⟨key, args, context, Subject.new, false⟩,
          { st with cacheStore :=
              st.cacheStore ++ [(key, ⟨key, args, context, Subject.new, false⟩)] })) ∧
    (∀ env now k2 a2 x2 k c c', WF st →
       alookup st.cacheStore k = some c →
       alookup (getCache env now st k2 a2 x2).cacheStore k = some c' →
       c'.lastArgs = c.lastArgs ∧ c'.context = c.context ∧ c'.key = c.key) := by
  refine ⟨?_, ?_, ?_⟩
  · intro c h
    unfold getAndEnsureCache
    rw [h]
  · intro h
    simp only [getAndEnsureCache, h, aset_of_none h]
  · intro env now k2 a2 x2 k c c' hwf h1 h2
    obtain ⟨d, ht, hent⟩ := getCache_evolve hwf env now k2 a2 x2
    have he := hent k c c' h1 h2
    exact ⟨he.1.2.1, he.1.2.2, he.1.1⟩

theorem c4_entry_store_witness :
    getAndEnsureCache stC1 1 8 9 = (cacheC1, stC1) ∧
    ((setCacheData cacheC1 9).lastArgs = cacheC1.lastArgs ∧
     (setCacheData cacheC1 9).context = cacheC1.context ∧
     (setCacheData cacheC1 9).key = cacheC1.key) :=
  ⟨(c4_entry_store stC1 1 8 9).1 cacheC1 (by decide),
   (c4_entry_store stC1 1 0 0).2.2 envC1 5 1 0 0 1 cacheC1 (setCacheData cacheC1 9)
     (by decide) (by decide) (by decide)⟩

/-- C7: for an entry surviving any single manager operation applied to any
state reachable from the initial state, the initialized flag never reverts
from true to false; it flips from false to true only in an operation that
publishes on the entry's channel (so it flips at most once, at the first
publication for the entry); and an operation that publishes for the
entry's key leaves the flag true. -/
theorem c7_initialized_monotone (env : Env) (ops : List Op) (op : Op) (k : Nat)
    (c c' : Cache)
    (h1 : alookup (runOps env initState ops).cacheStore k = some c)
    (h2 : alookup (applyOp env (runOps env initState ops) op).cacheStore k = some c') :
    (c.initialized = true → c'.initialized = true) ∧
    (c.initialized = false → c'.initialized = true →
       ∃ v, Event.publish k v ∈
         (applyOp env (runOps env initState ops) op).trace.drop
           (runOps env initState ops).trace.length) ∧
    ((∃ v, Event.publish k v ∈
        (applyOp env (runOps env initState ops) op).trace.drop
          (runOps env initState ops).trace.length) →
       c'.initialized = true) := by
  have hwf := runOps_WF env ops initState WF_initState
  obtain ⟨d, ht, hent⟩ := applyOp_evolve hwf env op
  have he := hent k c c' h1 h2
  have hdrop : (applyOp env (runOps env initState ops) op).trace.drop
      (runOps env initState ops).trace.length = d := by
    rw [ht]
    exact List.drop_left _ _
  rw [hdrop]
  exact ⟨he.2.1, he.2.2.1, he.2.2.2.1⟩

theorem c7_initialized_monotone_witness :
    (Cache.mk 1 0 0 (Subject.mk (some 5) none 0) true).initialized = true :=
  (c7_initialized_monotone envC10 [Op.read 1 0 0 0] (Op.read 1 0 0 3) 1
    ⟨1, 0, 0, ⟨some 5, none, 0⟩, true⟩ ⟨1, 0, 0, ⟨some 5, none, 0⟩, true⟩
    (by decide) (by decide)).1 rfl
